import Mathlib

/-
  Verification of the qjsx module-resolution subsystem
  (src/qjsx-module-resolution.h and the loader adapter in src/qjsx.c).

  The embedding targets the Unix build: PATH_SEP = ":" and DIR_SEP = "/".

  The filesystem is modelled as a list of entries; `file_exists` mirrors the
  C check `stat(path,&st)==0 && S_ISREG(st.st_mode) && access(path,R_OK)==0`:
  stat finds the (first) entry at the path, the entry must be a regular file,
  and it must be readable.

  Fallible allocations (`js_strdup` / `js_malloc`) are modelled by explicit
  Boolean success flags: `copyOk` for the strtok working copy in
  resolve_qjsxpath, a list `alloc` of per-directory candidate-buffer
  allocation outcomes (missing entries mean success), and `strdupOk` / `bufOk`
  for the two allocations in resolve_with_index.
-/

structure FSEntry where
  path : String
  isRegular : Bool
  readable : Bool
deriving DecidableEq

/-- Embeds `file_exists` (qjsx-module-resolution.h, lines 56-63): stat finds
the entry at `p`, it is a regular file, and read access is granted. -/
def file_exists (fs : List FSEntry) (p : String) : Bool :=
  match fs.find? (fun e => e.path == p) with
  | some e => e.isRegular && e.readable
  | none => false

/-- True when the last character is a directory separator, mirroring
`strchr("/\\", path[len-1])` on a nonempty string. -/
def endsInSep (p : String) : Bool :=
  match p.data.getLast? with
  | some c => c == '/' || c == '\\'
  | none => false

/-- Embeds the trailing-separator cleanup in resolve_qjsxpath (lines
106-110): when the last character is '/' or '\\' it is removed (exactly one
character), otherwise the string is unchanged. -/
def stripTrailingSep (p : String) : String :=
  if endsInSep p then String.mk p.data.dropLast else p

/-- Splits a character list at every occurrence of `sep`, keeping empty
segments (the plain notion of splitting, used to model strtok below). -/
def splitOnSep (sep : Char) : List Char → List (List Char)
  | [] => [[]]
  | c :: cs =>
    match splitOnSep sep cs with
    | [] => [[]]
    | t :: ts => if c == sep then [] :: t :: ts else (c :: t) :: ts

/-- Embeds the strtok(copy, PATH_SEP) loop driver (line 104): strtok yields
exactly the maximal nonempty runs between separators, i.e. the split with
empty segments dropped. -/
def tokens (s : String) : List String :=
  ((splitOnSep ':' s.data).filter (fun t => t != [])).map String.mk

/-- Embeds the per-directory body of resolve_qjsxpath (lines 106-148): strip
one trailing separator, then probe `<dir>/<name>/index.js`,
`<dir>/<name>.js`, `<dir>/<name>` in that order, returning the first
existing candidate. -/
def tryDir (fs : List FSEntry) (name dir : String) : Option String :=
  if file_exists fs (stripTrailingSep dir ++ "/" ++ name ++ "/index.js") then
    some (stripTrailingSep dir ++ "/" ++ name ++ "/index.js")
  else if file_exists fs (stripTrailingSep dir ++ "/" ++ name ++ ".js") then
    some (stripTrailingSep dir ++ "/" ++ name ++ ".js")
  else if file_exists fs (stripTrailingSep dir ++ "/" ++ name) then
    some (stripTrailingSep dir ++ "/" ++ name)
  else none

/-- Embeds the directory loop of resolve_qjsxpath (lines 104-149). The
`alloc` list records, per directory visited, whether the `js_malloc` of its
candidate buffer succeeds (line 116: on failure the directory is skipped
with `continue`); an exhausted `alloc` list means all later allocations
succeed. -/
def resolveDirs (fs : List FSEntry) (name : String) : List String → List Bool → Option String
  | [], _ => none
  | dir :: rest, alloc =>
    if alloc.headD true then
      match tryDir fs name dir with
      | some p => some p
      | none => resolveDirs fs name rest alloc.tail
    else resolveDirs fs name rest alloc.tail

/-- Embeds `resolve_qjsxpath` (lines 82-156). `env` is the value of the
QJSXPATH environment variable (`none` when unset, line 85); `copyOk` is the
outcome of the `js_strdup` of the working copy (line 90). -/
def resolve_qjsxpath (fs : List FSEntry) (env : Option String) (alloc : List Bool)
    (copyOk : Bool) (name : String) : Option String :=
  match env with
  | none => none
  | some paths =>
    if copyOk then resolveDirs fs name (tokens paths) alloc else none

/-- Embeds `resolve_with_index` (lines 170-197): try the exact path (returned
via js_strdup, whose outcome is `strdupOk`), then `<name>.js`, then
`<name>/index.js` (both built in a buffer whose allocation outcome is
`bufOk`, line 181). -/
def resolve_with_index (fs : List FSEntry) (strdupOk bufOk : Bool) (name : String) : Option String :=
  if file_exists fs name then
    if strdupOk then some name else none
  else if bufOk then
    if file_exists fs (name ++ ".js") then some (name ++ ".js")
    else if file_exists fs (name ++ "/index.js") then some (name ++ "/index.js")
    else none
  else none

/-- Embeds `translate_colons_to_slashes` (lines 209-225): `none` when the
name contains no ':' (strchr test, line 210), otherwise a fresh copy with
every ':' replaced by '/'. -/
def translate_colons_to_slashes (name : String) : Option String :=
  if name.data.contains ':' then
    some (String.mk (name.data.map (fun c => if c == ':' then '/' else c)))
  else none

/-- Embeds the bare-specifier test `module_name[0] != '.' && module_name[0] != '/'`
(qjsx.c, line 69); on the empty string C reads the terminating NUL, which is
neither '.' nor '/'. -/
def isBare (s : String) : Bool :=
  match s.data with
  | [] => true
  | c :: _ => c != '.' && c != '/'

/-- Embeds `module_name = translated_name ? translated_name : name`
(qjsx.c, line 55). -/
def normalizeName (name : String) : String :=
  (translate_colons_to_slashes name).getD name

/-- Embeds `qjsx_loader` (qjsx.c, lines 44-106). `native` stands for the
host engine's `js_module_loader`, returning `none` for a NULL JSModuleDef;
the opaque/attributes arguments are folded into `native`. -/
def qjsx_loader {M : Type} (fs : List FSEntry) (env : Option String) (alloc : List Bool)
    (copyOk strdupOk bufOk : Bool) (native : String → Option M) (name : String) : Option M :=
  match (if isBare (normalizeName name) then
           resolve_qjsxpath fs env alloc copyOk (normalizeName name)
         else none) with
  | some path => native path
  | none =>
    match resolve_with_index fs strdupOk bufOk (normalizeName name) with
    | some p => native p
    | none => native (normalizeName name)

/- Specification-side definitions, written from the spec's wording, used to
state the refinement claims about candidate lists and priority order. -/

/-- The three candidates the spec prescribes per search directory, in
priority order, after stripping a single trailing separator. -/
def searchCandidates (dir name : String) : List String :=
  [stripTrailingSep dir ++ "/" ++ name ++ "/index.js",
   stripTrailingSep dir ++ "/" ++ name ++ ".js",
   stripTrailingSep dir ++ "/" ++ name]

/-- Spec-level search-path resolution: first directory whose candidate list
yields an existing file wins; within a directory the first existing
candidate wins. -/
def specSearchResolve (fs : List FSEntry) (name : String) (dirs : List String) : Option String :=
  dirs.findSome? (fun d => (searchCandidates d name).find? (fun c => file_exists fs c))

/-- The three local-resolution candidates the spec prescribes, in order. -/
def localCandidates (name : String) : List String :=
  [name, name ++ ".js", name ++ "/index.js"]

/-- The directories that survive the allocation outcomes: a directory whose
candidate-buffer allocation failed is dropped, the rest keep their order. -/
def keepAllocated : List String → List Bool → List String
  | [], _ => []
  | dir :: rest, alloc =>
    if alloc.headD true then dir :: keepAllocated rest alloc.tail
    else keepAllocated rest alloc.tail

/-- Joins path-list segments with the Unix path-list separator ':'. -/
def joinSegs : List String → String
  | [] => ""
  | [s] => s
  | s :: rest => s ++ ":" ++ joinSegs rest

/- Concrete filesystems used by witnesses and counterexamples. -/

/-- A small filesystem: a search-path hit under "m", a local hit for "./bar",
and a local hit for bare "u". -/
def demoFS : List FSEntry :=
  [⟨"m/u.js", true, true⟩, ⟨"./bar.js", true, true⟩, ⟨"u.js", true, true⟩]

/-- A filesystem holding both the doubled-separator path and the clean path
for directory entry "a" and specifier "u". -/
def fsDouble : List FSEntry :=
  [⟨"a//u/index.js", true, true⟩, ⟨"a/u/index.js", true, true⟩]

/- Helper lemmas. -/

theorem resolveDirs_cons_nil (fs : List FSEntry) (name dir : String) (rest : List String) :
    resolveDirs fs name (dir :: rest) [] =
      (match tryDir fs name dir with
       | some p => some p
       | none => resolveDirs fs name rest []) := rfl

theorem resolveDirs_cons_true (fs : List FSEntry) (name dir : String) (rest : List String)
    (alloc : List Bool) :
    resolveDirs fs name (dir :: rest) (true :: alloc) =
      (match tryDir fs name dir with
       | some p => some p
       | none => resolveDirs fs name rest alloc) := rfl

theorem resolveDirs_cons_false (fs : List FSEntry) (name dir : String) (rest : List String)
    (alloc : List Bool) :
    resolveDirs fs name (dir :: rest) (false :: alloc) = resolveDirs fs name rest alloc := rfl

theorem tryDir_eq_find (fs : List FSEntry) (name d : String) :
    tryDir fs name d = (searchCandidates d name).find? (fun c => file_exists fs c) := by
  unfold tryDir searchCandidates
  cases h1 : file_exists fs (stripTrailingSep d ++ "/" ++ name ++ "/index.js") <;>
    cases h2 : file_exists fs (stripTrailingSep d ++ "/" ++ name ++ ".js") <;>
      cases h3 : file_exists fs (stripTrailingSep d ++ "/" ++ name) <;>
        simp [List.find?, h1, h2, h3]

theorem resolveDirs_eq_spec (fs : List FSEntry) (name : String) (dirs : List String) :
    resolveDirs fs name dirs [] = specSearchResolve fs name dirs := by
  induction dirs with
  | nil => rfl
  | cons d rest ih =>
    rw [resolveDirs_cons_nil, tryDir_eq_find]
    unfold specSearchResolve
    rw [List.findSome?_cons]
    cases hfd : (searchCandidates d name).find? (fun c => file_exists fs c) with
    | none => exact ih
    | some p => rfl

/- Claim theorems. -/

/-- C1: for every bare specifier and every QJSXPATH value, search-path
resolution walks the strtok directory list in order; each directory, after
stripping one trailing separator, contributes exactly the three candidates
dir/spec/index.js, dir/spec.js, dir/spec in that priority order; the first
existing candidate of the first successful directory is the result and later
directories are not consulted (first-match-wins semantics, stated as
equality with the spec-level findSome?/find? resolution). -/
theorem resolve_qjsxpath_spec (fs : List FSEntry) (paths name : String) :
    resolve_qjsxpath fs (some paths) [] true name = specSearchResolve fs name (tokens paths) :=
  resolveDirs_eq_spec fs name (tokens paths)

/-- C7: when QJSXPATH is unset, the search-path stage signals absence for
every specifier and every filesystem state (the result does not depend on
the filesystem, so no existence check can influence it). -/
theorem resolve_qjsxpath_env_unset (fs : List FSEntry) (alloc : List Bool) (copyOk : Bool)
    (name : String) :
    resolve_qjsxpath fs none alloc copyOk name = none := rfl

/-- C4: a specifier with no ':' makes normalization signal "no change
needed"; a specifier with at least one ':' yields a new string of the same
length in which every ':' became '/' and every other position is unchanged;
in particular translate("node:fs") = "node/fs". -/
theorem translate_colons_spec (name : String) :
    (name.data.contains ':' = false → translate_colons_to_slashes name = none) ∧
    (name.data.contains ':' = true →
      ∃ t, translate_colons_to_slashes name = some t ∧
        t.data.length = name.data.length ∧
        ∀ i (hi : i < name.data.length) (ht : i < t.data.length),
          t.data[i] = (if name.data[i] = ':' then '/' else name.data[i])) ∧
    translate_colons_to_slashes "node:fs" = some "node/fs" := by
  refine ⟨?_, ?_, by decide⟩
  · intro h
    simp only [translate_colons_to_slashes, h]
    rfl
  · intro h
    refine ⟨String.mk (name.data.map (fun c => if c == ':' then '/' else c)), ?_, ?_, ?_⟩
    · simp only [translate_colons_to_slashes, h]
      rfl
    · simp
    · intro i hi ht
      simp [beq_iff_eq]

theorem translate_colons_spec_witness :
    translate_colons_to_slashes "util" = none ∧
    translate_colons_to_slashes "node:fs" = some "node/fs" :=
  ⟨(translate_colons_spec "util").1 (by decide), (translate_colons_spec "util").2.2⟩

/-- C3: local resolution tries the specifier verbatim, then with ".js"
appended, then with "/index.js" appended, returning the first existing file
and signalling absence otherwise (stated as equality with find? over the
spec's candidate list); a specifier that already names an existing file is
returned unchanged. -/
theorem resolve_with_index_spec (fs : List FSEntry) (name : String) :
    resolve_with_index fs true true name
      = (localCandidates name).find? (fun c => file_exists fs c) ∧
    (file_exists fs name = true → resolve_with_index fs true true name = some name) := by
  constructor
  · unfold resolve_with_index localCandidates
    cases h1 : file_exists fs name <;>
      cases h2 : file_exists fs (name ++ ".js") <;>
        cases h3 : file_exists fs (name ++ "/index.js") <;>
          simp [List.find?, h1, h2, h3]
  · intro h
    unfold resolve_with_index
    simp [h]

theorem resolve_with_index_spec_witness :
    resolve_with_index demoFS true true "./bar" = some "./bar.js" ∧
    resolve_with_index demoFS true true "./bar.js" = some "./bar.js" :=
  ⟨((resolve_with_index_spec demoFS "./bar").1).trans (by decide),
   (resolve_with_index_spec demoFS "./bar.js").2 (by decide)⟩

theorem file_exists_sound (fs : List FSEntry) (p : String) (h : file_exists fs p = true) :
    ∃ e, e ∈ fs ∧ e.path = p ∧ e.isRegular = true ∧ e.readable = true := by
  unfold file_exists at h
  cases hf : fs.find? (fun e => e.path == p) with
  | none => rw [hf] at h; exact absurd h (by simp)
  | some e =>
    rw [hf] at h
    have hmem := List.mem_of_find?_eq_some hf
    have hp := List.find?_some hf
    have h2 : e.isRegular = true ∧ e.readable = true := by simpa using h
    exact ⟨e, hmem, beq_iff_eq.mp hp, h2.1, h2.2⟩

theorem tryDir_sound (fs : List FSEntry) (name d p : String) (h : tryDir fs name d = some p) :
    file_exists fs p = true := by
  unfold tryDir at h
  repeat' split at h
  all_goals simp_all

theorem resolveDirs_sound (fs : List FSEntry) (name : String) (dirs : List String)
    (alloc : List Bool) (p : String) (h : resolveDirs fs name dirs alloc = some p) :
    file_exists fs p = true := by
  induction dirs generalizing alloc with
  | nil => exact absurd h (by simp [resolveDirs])
  | cons d rest ih =>
    unfold resolveDirs at h
    split at h
    · cases htd : tryDir fs name d with
      | some q => rw [htd] at h; cases h; exact tryDir_sound fs name d p htd
      | none => rw [htd] at h; exact ih alloc.tail h
    · exact ih alloc.tail h

/-- C5: every path returned by the search-path resolver or the local
resolver names a filesystem entry that exists, is a regular file, and is
readable; in every other case the resolvers signal absence (they are
Option-valued, so a result is either a fully verified path or none). -/
theorem resolver_paths_verified (fs : List FSEntry) (env : Option String) (alloc : List Bool)
    (copyOk strdupOk bufOk : Bool) (name p : String) :
    (resolve_qjsxpath fs env alloc copyOk name = some p →
      ∃ e, e ∈ fs ∧ e.path = p ∧ e.isRegular = true ∧ e.readable = true) ∧
    (resolve_with_index fs strdupOk bufOk name = some p →
      ∃ e, e ∈ fs ∧ e.path = p ∧ e.isRegular = true ∧ e.readable = true) := by
  constructor
  · intro h
    apply file_exists_sound
    cases env with
    | none => exact absurd h (by simp [resolve_qjsxpath])
    | some paths =>
      cases copyOk with
      | false => exact absurd h (by simp [resolve_qjsxpath])
      | true => exact resolveDirs_sound fs name (tokens paths) alloc p h
  · intro h
    apply file_exists_sound
    unfold resolve_with_index at h
    repeat' split at h
    all_goals simp_all

theorem resolver_paths_verified_witness :
    ∃ e, e ∈ demoFS ∧ e.path = "u.js" ∧ e.isRegular = true ∧ e.readable = true :=
  (resolver_paths_verified demoFS none [] true true true "u" "u.js").2 (by decide)

theorem resolveDirs_keepAllocated (fs : List FSEntry) (name : String) (dirs : List String)
    (alloc : List Bool) :
    resolveDirs fs name dirs alloc = resolveDirs fs name (keepAllocated dirs alloc) [] := by
  induction dirs generalizing alloc with
  | nil => rfl
  | cons d rest ih =>
    cases alloc with
    | nil =>
      rw [resolveDirs_cons_nil,
          show keepAllocated (d :: rest) [] = d :: keepAllocated rest [] from rfl,
          resolveDirs_cons_nil]
      cases htd : tryDir fs name d with
      | some q => rfl
      | none => exact ih []
    | cons b bs =>
      cases b with
      | false => exact ih bs
      | true =>
        rw [resolveDirs_cons_true,
            show keepAllocated (d :: rest) (true :: bs) = d :: keepAllocated rest bs from rfl,
            resolveDirs_cons_nil]
        cases htd : tryDir fs name d with
        | some q => rfl
        | none => exact ih bs

/-- C8: failure to allocate a directory's candidate buffer only skips that
directory: resolution over the token list with any pattern of per-directory
allocation outcomes equals all-allocations-succeed resolution over the
subsequence of directories whose allocation succeeded, so the call still
ends in an ordinary found-path or absence result. -/
theorem resolve_qjsxpath_alloc_skip (fs : List FSEntry) (paths name : String)
    (alloc : List Bool) :
    resolve_qjsxpath fs (some paths) alloc true name
      = resolveDirs fs name (keepAllocated (tokens paths) alloc) [] :=
  resolveDirs_keepAllocated fs name (tokens paths) alloc

theorem stripTrailingSep_append_sep (d : String) : stripTrailingSep (d ++ "/") = d := by
  have hd : (d ++ "/").data = d.data ++ ['/'] := by rw [String.data_append]
  unfold stripTrailingSep endsInSep
  rw [hd, List.getLast?_concat, List.dropLast_concat]
  rfl

theorem stripTrailingSep_of_not_sep (d : String) (h : endsInSep d = false) :
    stripTrailingSep d = d := by
  unfold stripTrailingSep
  simp [h]

theorem tryDir_append_sep (fs : List FSEntry) (name d : String) (h : endsInSep d = false) :
    tryDir fs name (d ++ "/") = tryDir fs name d := by
  unfold tryDir
  rw [stripTrailingSep_append_sep, stripTrailingSep_of_not_sep d h]

/-- C6 counterexample: the code strips only a single trailing separator, so
the search-path entry "a//" yields the candidate "a//u/index.js", which
contains a doubled separator at the join point and differs from the
candidate built for entry "a/"; the claim's universally quantified
no-doubled-separator property is therefore false at entry "a//". -/
theorem search_double_sep_counterexample :
    resolve_qjsxpath fsDouble (some "a//") [] true "u" = some "a//u/index.js" ∧
    resolve_qjsxpath fsDouble (some "a/") [] true "u" = some "a/u/index.js" ∧
    ("a//u/index.js" : String) ≠ "a/u/index.js" := by decide

/-- C6 amended: exactly one trailing separator is stripped per search-path
entry, so an entry formed by appending a single separator to a
separator-free directory produces the same three candidates and the same
search result as the entry without it ("./dir/" behaves exactly like
"./dir"); entries ending in two or more separators keep the surplus
separators. -/
theorem search_single_trailing_sep (fs : List FSEntry) (name d : String)
    (dirs1 dirs2 : List String) (h : endsInSep d = false) :
    searchCandidates (d ++ "/") name = searchCandidates d name ∧
    resolveDirs fs name (dirs1 ++ (d ++ "/") :: dirs2) []
      = resolveDirs fs name (dirs1 ++ d :: dirs2) [] := by
  constructor
  · unfold searchCandidates
    rw [stripTrailingSep_append_sep, stripTrailingSep_of_not_sep d h]
  · induction dirs1 with
    | nil =>
      rw [List.nil_append, List.nil_append, resolveDirs_cons_nil, resolveDirs_cons_nil,
          tryDir_append_sep fs name d h]
    | cons a rest ih =>
      rw [List.cons_append, List.cons_append, resolveDirs_cons_nil, resolveDirs_cons_nil]
      cases ht : tryDir fs name a with
      | some q => rfl
      | none => exact ih

theorem search_single_trailing_sep_witness :
    searchCandidates ("./dir" ++ "/") "u" = searchCandidates "./dir" "u" ∧
    resolveDirs demoFS "u" [("./dir" ++ "/")] [] = resolveDirs demoFS "u" ["./dir"] [] :=
  search_single_trailing_sep demoFS "u" "./dir" [] [] (by decide)

theorem splitOnSep_ne_nil (sep : Char) (l : List Char) : splitOnSep sep l ≠ [] := by
  cases l with
  | nil => simp [splitOnSep]
  | cons c cs =>
    unfold splitOnSep
    cases splitOnSep sep cs with
    | nil => simp
    | cons t ts => cases hc : (c == sep) <;> simp [hc]

theorem splitOnSep_sepFree (sep : Char) (l : List Char) (h : sep ∉ l) :
    splitOnSep sep l = [l] := by
  induction l with
  | nil => rfl
  | cons c cs ih =>
    unfold splitOnSep
    rw [ih (fun hm => h (List.mem_cons_of_mem c hm))]
    have hc : (c == sep) = false := by
      apply beq_eq_false_iff_ne.mpr
      intro hcs
      subst hcs
      exact h (List.mem_cons_self c cs)
    simp [hc]

theorem splitOnSep_cons (sep c : Char) (cs : List Char) :
    splitOnSep sep (c :: cs) =
      (match splitOnSep sep cs with
       | [] => [[]]
       | t :: ts => if c == sep then [] :: t :: ts else (c :: t) :: ts) := rfl

theorem splitOnSep_append (sep : Char) (l1 l2 : List Char) (h : sep ∉ l1) :
    splitOnSep sep (l1 ++ sep :: l2) = l1 :: splitOnSep sep l2 := by
  induction l1 with
  | nil =>
    rw [List.nil_append, splitOnSep_cons]
    cases hs : splitOnSep sep l2 with
    | nil => exact absurd hs (splitOnSep_ne_nil sep l2)
    | cons t ts => simp
  | cons c cs ih =>
    rw [List.cons_append, splitOnSep_cons, ih (fun hm => h (List.mem_cons_of_mem c hm))]
    have hc : (c == sep) = false := by
      apply beq_eq_false_iff_ne.mpr
      intro hcs
      subst hcs
      exact h (List.mem_cons_self c cs)
    simp [hc]

theorem mk_data (s : String) : String.mk s.data = s := rfl

theorem joinSegs_cons_cons (s s2 : String) (rest : List String) :
    joinSegs (s :: s2 :: rest) = s ++ ":" ++ joinSegs (s2 :: rest) := rfl

theorem tokens_joinSegs (segs : List String) (h : ∀ s ∈ segs, ':' ∉ s.data) :
    tokens (joinSegs segs) = segs.filter (fun s => s != "") := by
  induction segs with
  | nil => rfl
  | cons s rest ih =>
    have hs : ':' ∉ s.data := h s (List.mem_cons_self s rest)
    have hrest : ∀ t ∈ rest, ':' ∉ t.data := fun t ht => h t (List.mem_cons_of_mem s ht)
    have hcond : (s.data != []) = (s != "") := by
      by_cases hse : s = ""
      · subst hse; rfl
      · have hd : s.data ≠ [] := fun hdd => hse (by rw [← mk_data s, hdd])
        rw [bne_iff_ne.mpr hd, bne_iff_ne.mpr hse]
    cases rest with
    | nil =>
      show tokens s = _
      unfold tokens
      rw [splitOnSep_sepFree ':' s.data hs, List.filter_cons, List.filter_cons, hcond]
      cases hb : (s != "") <;> simp [hb]
    | cons s2 rest2 =>
      have ihh := ih hrest
      unfold tokens at ihh
      rw [joinSegs_cons_cons]
      unfold tokens
      have hdata : (s ++ ":" ++ joinSegs (s2 :: rest2)).data
          = s.data ++ ':' :: (joinSegs (s2 :: rest2)).data := by
        rw [String.data_append, String.data_append, List.append_assoc]
        rfl
      rw [hdata, splitOnSep_append ':' s.data _ hs, List.filter_cons, List.filter_cons, hcond]
      cases hb : (s != "") <;> simp [hb, mk_data, ihh]

/-- C9: empty segments of the QJSXPATH value are tolerated without error and
never contribute a candidate: resolution over a joined segment list equals
resolution over the nonempty segments alone, and a value consisting only of
empty segments always signals absence. -/
theorem resolve_qjsxpath_empty_segments (fs : List FSEntry) (name : String)
    (segs : List String) (h : ∀ s ∈ segs, ':' ∉ s.data) :
    resolve_qjsxpath fs (some (joinSegs segs)) [] true name
      = resolveDirs fs name (segs.filter (fun s => s != "")) [] ∧
    ((∀ s ∈ segs, s = "") →
      resolve_qjsxpath fs (some (joinSegs segs)) [] true name = none) := by
  have key : resolve_qjsxpath fs (some (joinSegs segs)) [] true name
      = resolveDirs fs name (segs.filter (fun s => s != "")) [] := by
    show resolveDirs fs name (tokens (joinSegs segs)) [] = _
    rw [tokens_joinSegs segs h]
  refine ⟨key, fun hall => ?_⟩
  rw [key]
  have hnil : segs.filter (fun s => s != "") = [] := by
    rw [List.filter_eq_nil_iff]
    intro a ha
    simp [hall a ha]
  rw [hnil]
  rfl

theorem resolve_qjsxpath_empty_segments_witness :
    resolve_qjsxpath demoFS (some (joinSegs ["", "m", ""])) [] true "u"
      = resolveDirs demoFS "u" (["", "m", ""].filter (fun s => s != "")) [] :=
  (resolve_qjsxpath_empty_segments demoFS "u" ["", "m", ""] (by decide)).1

/-- C2: the loader adapter first normalizes the raw specifier; when the
normalized specifier is bare it attempts search-path resolution; on absence
it attempts local resolution on the normalized specifier; on absence it
hands the normalized specifier verbatim to the native loader; exactly one of
the three outcomes (native loader applied to the search-path hit, to the
local hit, or to the normalized specifier) is the final result. -/
theorem qjsx_loader_spec {M : Type} (fs : List FSEntry) (env : Option String)
    (alloc : List Bool) (copyOk strdupOk bufOk : Bool) (native : String → Option M)
    (name : String) :
    (∃ p, isBare (normalizeName name) = true ∧
        resolve_qjsxpath fs env alloc copyOk (normalizeName name) = some p ∧
        qjsx_loader fs env alloc copyOk strdupOk bufOk native name = native p) ∨
    ((isBare (normalizeName name) = false ∨
        resolve_qjsxpath fs env alloc copyOk (normalizeName name) = none) ∧
      ∃ q, resolve_with_index fs strdupOk bufOk (normalizeName name) = some q ∧
        qjsx_loader fs env alloc copyOk strdupOk bufOk native name = native q) ∨
    ((isBare (normalizeName name) = false ∨
        resolve_qjsxpath fs env alloc copyOk (normalizeName name) = none) ∧
      resolve_with_index fs strdupOk bufOk (normalizeName name) = none ∧
      qjsx_loader fs env alloc copyOk strdupOk bufOk native name
        = native (normalizeName name)) := by
  cases hb : isBare (normalizeName name) with
  | true =>
    cases hs : resolve_qjsxpath fs env alloc copyOk (normalizeName name) with
    | some p => exact Or.inl ⟨p, rfl, rfl, by simp [qjsx_loader, hb, hs]⟩
    | none =>
      cases hl : resolve_with_index fs strdupOk bufOk (normalizeName name) with
      | some q =>
        exact Or.inr (Or.inl ⟨Or.inr rfl, q, rfl, by simp [qjsx_loader, hb, hs, hl]⟩)
      | none =>
        exact Or.inr (Or.inr ⟨Or.inr rfl, rfl, by simp [qjsx_loader, hb, hs, hl]⟩)
  | false =>
    cases hl : resolve_with_index fs strdupOk bufOk (normalizeName name) with
    | some q => exact Or.inr (Or.inl ⟨Or.inl rfl, q, rfl, by simp [qjsx_loader, hb, hl]⟩)
    | none => exact Or.inr (Or.inr ⟨Or.inl rfl, rfl, by simp [qjsx_loader, hb, hl]⟩)

/-- C10: once a stage resolves a path, the loader's final outcome is the
native loader's result for that resolved path, even when that result is a
NULL module, and no later stage is attempted as a fallback: a search-path
hit short-circuits local resolution, and a local hit short-circuits
native loading of the original specifier. -/
theorem qjsx_loader_no_fallback {M : Type} (fs : List FSEntry) (env : Option String)
    (alloc : List Bool) (copyOk strdupOk bufOk : Bool) (native : String → Option M)
    (name p q : String) :
    (isBare (normalizeName name) = true →
      resolve_qjsxpath fs env alloc copyOk (normalizeName name) = some p →
      qjsx_loader fs env alloc copyOk strdupOk bufOk native name = native p) ∧
    ((isBare (normalizeName name) = false ∨
        resolve_qjsxpath fs env alloc copyOk (normalizeName name) = none) →
      resolve_with_index fs strdupOk bufOk (normalizeName name) = some q →
      qjsx_loader fs env alloc copyOk strdupOk bufOk native name = native q) := by
  constructor
  · intro hb hs
    simp [qjsx_loader, hb, hs]
  · intro hor hl
    cases hor with
    | inl hb => simp [qjsx_loader, hb, hl]
    | inr hs => cases hb : isBare (normalizeName name) <;> simp [qjsx_loader, hb, hs, hl]

theorem qjsx_loader_no_fallback_witness :
    qjsx_loader demoFS (some "m") [] true true true (fun _ => (none : Option Nat)) "u"
      = none ∧
    resolve_with_index demoFS true true "u" = some "u.js" :=
  ⟨(qjsx_loader_no_fallback demoFS (some "m") [] true true true
      (fun _ => (none : Option Nat)) "u" "m/u.js" "u.js").1 (by decide) (by decide),
   by decide⟩
